import Mathlib

/-!
Verification of the BioSteg document-vault pipeline against its
natural-language specification.

The development shallowly embeds the four core components of the
repository:

* the LSB steganographic codec (`embed_data_in_image`,
  `extract_data_from_image`, from the Python scripts generated in the
  steganography service);
* the AES-256-GCM encryption service (`encrypt`, `decrypt`,
  `generateDocumentKey`, `encryptDocument`, `decryptDocument`);
* the second encryption service with package serialization
  (`encryptDocument11`, `serializeEncryptedPackage`) and the biometric
  template registration row;
* the biometric matcher (`compareFeatures`, `cosineSimilarity`,
  `assessQuality`, `verifyBiometric`) and the document-access route
  handler with its audit log (`verifyHandler`).

Machine bytes are modelled as `Nat` (with `% 256` / bounds hypotheses
where byte width matters), buffers as `List Nat`, and JavaScript floats
as `ℚ`.  Calls into external libraries (OpenSSL via node `crypto`,
`Math.sqrt`) are modelled from the spec's contracts; each such stand-in
carries a doc comment explaining the modelling choice.
-/

set_option maxRecDepth 16384

namespace BioSteg

/-! ### Steganographic codec (embed.py / extract.py) -/

/-- The 16-bit end-of-data delimiter `'1111111111111110'` appended by
`embed_data_in_image` and searched for by `extract_data_from_image`. -/
def delim : List Nat := [1, 1, 1, 1, 1, 1, 1, 1, 1, 1, 1, 1, 1, 1, 1, 0]

/-- `format(byte, '08b')`: the eight bits of a byte, most significant
first.  (For inputs `≥ 256` Python would emit more than eight
characters; theorems therefore carry a `< 256` hypothesis on payload
bytes, which holds for bytes read from a file.) -/
def byteToBits (b : Nat) : List Nat :=
  [b / 128 % 2, b / 64 % 2, b / 32 % 2, b / 16 % 2,
   b / 8 % 2, b / 4 % 2, b / 2 % 2, b % 2]

/-- `''.join(format(byte, '08b') for byte in data)`: the payload bit
stream, one byte after another, most significant bit first. -/
def bytesToBits (data : List Nat) : List Nat :=
  (data.map byteToBits).flatten

/-- A carrier image as the codec sees it after `cv2.imread`: a shape
`(height, width, channels)` and the flattened pixel-channel values in
raster order (`img.flatten()`). -/
structure CarrierImage where
  height : Nat
  width : Nat
  channels : Nat
  pixels : List Nat
deriving DecidableEq, Repr

/-- `flat_img[i] = (flat_img[i] & 0xFE) | int(bit)` for each bit of the
binary data, leaving the remaining values untouched. -/
def embedBits : List Nat → List Nat → List Nat
  | flat, [] => flat
  | [], _ => []
  | v :: flat, b :: bits => ((v &&& 254) ||| b) :: embedBits flat bits

/-- `embed_data_in_image`: serialize the payload to bits, append the
delimiter, refuse if the bit count exceeds
`img.shape[0] * img.shape[1] * img.shape[2]`, otherwise overwrite the
least-significant bits of the flattened image in raster order and
reshape back.  The capacity test precedes the write loop, so a failing
embed performs no mutation. -/
def embed_data_in_image (img : CarrierImage) (data : List Nat) :
    Option CarrierImage :=
  let binaryData := bytesToBits data ++ delim
  let totalPixels := img.height * img.width * img.channels
  if binaryData.length > totalPixels then
    none
  else
    some { img with pixels := embedBits img.pixels binaryData }

/-- The extraction loop of `extract_data_from_image`: append the LSB of
each successive value to the accumulated bit string; as soon as the
accumulated string ends with the delimiter, strip the delimiter and
stop.  If the stream runs out first, the whole accumulated string is
returned (the Python loop simply ends without any error). -/
def extractBitsAux : List Nat → List Nat → List Nat
  | [], acc => acc
  | p :: rest, acc =>
    let acc' := acc ++ [p % 2]
    if delim <:+ acc' then acc'.take (acc'.length - 16)
    else extractBitsAux rest acc'

/-- Zero padding to a byte boundary:
`binary_data += '0' * (8 - len(binary_data) % 8)` when the length is
not already a multiple of eight. -/
def padToByte (bits : List Nat) : List Nat :=
  bits ++ List.replicate ((8 - bits.length % 8) % 8) 0

/-- `int(byte, 2)` over successive 8-bit chunks; a trailing chunk of
fewer than eight bits is dropped (the `if len(byte) == 8` guard). -/
def bitsToBytes : List Nat → List Nat
  | b0 :: b1 :: b2 :: b3 :: b4 :: b5 :: b6 :: b7 :: rest =>
    (((((((b0 * 2 + b1) * 2 + b2) * 2 + b3) * 2 + b4) * 2 + b5) * 2 + b6)
        * 2 + b7) :: bitsToBytes rest
  | _ => []

/-- `extract_data_from_image`: scan the flattened LSB stream for the
delimiter, zero-pad the recovered bit string to a byte boundary and
reassemble bytes (most significant bit first).  There is no failure
branch: when the delimiter never occurs the padded full stream is
returned. -/
def extract_data_from_image (img : CarrierImage) : List Nat :=
  bitsToBytes (padToByte (extractBitsAux img.pixels []))

/-! ### Encryption service (encryption.js, AES-256-GCM via node crypto) -/

/-- Modelled from the spec: SHA-256 (`crypto.createHash('sha256')`).
The hash itself lives in node's crypto library, outside the repository;
it is modelled as a deterministic 32-byte digest of the input bytes.
No claim depends on more than determinism and ordinary dispersion of
the digest. -/
def sha256Model (input : List Nat) : List Nat :=
  let seed := input.foldl (fun a b => (a * 131 + b + 17) % 4294967296) 5381
  (List.range 32).map (fun j => (seed * (2 * j + 3) + j * j + 7) % 256)

/-- Character codes of a string, the byte view used when hashing
string inputs (the sources hash ASCII strings, for which this matches
their UTF-8 bytes). -/
def strBytes (s : String) : List Nat :=
  s.data.map Char.toNat

/-- `Buffer.writeUInt32BE`: four big-endian bytes of a 32-bit length. -/
def u32be (n : Nat) : List Nat :=
  [n / 16777216 % 256, n / 65536 % 256, n / 256 % 256, n % 256]

/-- `Buffer.readUInt32BE` on the first four bytes. -/
def readU32 (bs : List Nat) : Nat :=
  bs.getD 0 0 * 16777216 + bs.getD 1 0 * 65536 + bs.getD 2 0 * 256 +
    bs.getD 3 0

/-- XOR-fold of a byte list, the accumulator of the modelled GHASH. -/
def xorAll (l : List Nat) : Nat :=
  l.foldr (· ^^^ ·) 0

/-- Key stream byte `i` of the modelled cipher (derived from the key
alone, as `createCipher`'s EVP_BytesToKey derivation does). -/
def ks (key : List Nat) (i : Nat) : Nat :=
  ((sha256Model key).getD (i % 32) 0 + i / 32) % 256

/-- Byte-wise XOR of a buffer against the key stream starting at
position `i`; applying it twice restores the buffer. -/
def xorKs (key : List Nat) : Nat → List Nat → List Nat
  | _, [] => []
  | i, b :: rest => (b ^^^ ks key i) :: xorKs key (i + 1) rest

/-- Modelled from the spec: the AES-256-GCM authentication tag as
produced through `crypto.createCipher` / verified through
`crypto.createDecipher`.  Those deprecated node APIs derive the cipher
key and IV from the key argument alone via EVP_BytesToKey; the `iv`
generated by the service (and the `{ iv }` option passed in
`encryption.js`) never reaches OpenSSL, so the tag binds only the key,
the associated data and the exact ciphertext.  The model realizes the
spec's tamper-sensitivity contract — the GHASH is linear in the
ciphertext bits, so every single-bit change of ciphertext or tag is
detected — as an XOR-fold mixed with a key digest. -/
def gcmTagOf (key aad ct : List Nat) : List Nat :=
  let d := sha256Model key
  ((xorAll (aad ++ ct)) ^^^ d.getD 0 0) :: (d.drop 1).take 15

/-- `encrypt(data, key)` of `encryption.js`: generate an IV (random in
the source, an explicit parameter here), run the cipher, and return
`Buffer.concat([iv, tag, encrypted])`.  The IV is stored but — because
`createCipher` ignores the `{ iv }` option — not used by the cipher. -/
def encrypt (data key iv : List Nat) : List Nat :=
  let encrypted := xorKs key 0 data
  let tag := gcmTagOf key [] encrypted
  iv ++ tag ++ encrypted

/-- `decrypt(encryptedData, key)` of `encryption.js`: slice off
`iv = [0,16)`, `tag = [16,32)`, `encrypted = [32,..)`, then run
`createDecipher` with the key, set the auth tag, and fail (throw,
caught as an error result) when the tag does not verify.  The sliced
IV is passed as `{ iv }` and ignored by `createDecipher`, so it does
not appear in the verification. -/
def decrypt (encryptedData key : List Nat) : Option (List Nat) :=
  if gcmTagOf key [] (encryptedData.drop 32) =
      (encryptedData.drop 16).take 16 then
    some (xorKs key 0 (encryptedData.drop 32))
  else none

/-- Flip bit `i` (bit `i % 8` of byte `i / 8`) of a byte buffer. -/
def flipBit (bs : List Nat) (i : Nat) : List Nat :=
  bs.set (i / 8) ((bs.getD (i / 8) 0) ^^^ 2 ^ (i % 8))

/-- `generateDocumentKey(userId, documentId)`:
`sha256(userId + ':' + documentId + ':' + Date.now())`.  The wall
clock reading `Date.now()` is the explicit `now` parameter; note that
the hash input therefore changes from call to call. -/
def generateDocumentKey (userId documentId : String) (now : Nat) :
    List Nat :=
  sha256Model (strBytes (userId ++ ":" ++ documentId ++ ":" ++
    toString now))

/-- Lower-case hex digit of a nibble. -/
def hexDigit (n : Nat) : Char :=
  if n < 10 then Char.ofNat (48 + n) else Char.ofNat (87 + n)

/-- `Buffer.toString('hex')`. -/
def hexStr (bs : List Nat) : String :=
  String.mk ((bs.map (fun b => [hexDigit (b / 16), hexDigit (b % 16)])).flatten)

/-- Value of a lower-case hex digit. -/
def hexVal (c : Char) : Nat :=
  if c.toNat ≤ 57 then c.toNat - 48 else c.toNat - 87

/-- Inverse of `hexStr` (hex decoding, two characters per byte). -/
def hexDecode : List Char → List Nat
  | c1 :: c2 :: rest => (hexVal c1 * 16 + hexVal c2) :: hexDecode rest
  | _ => []

/-- The metadata object built by `encryptDocument` before encryption. -/
structure DocMetadata where
  userId : String
  documentId : String
  timestamp : Nat
  size : Nat
  checksum : String
deriving DecidableEq, Repr

/-- A length-prefixed byte field. -/
def lenPrefixed (bs : List Nat) : List Nat :=
  u32be bs.length ++ bs

/-- Modelled from the spec: `JSON.stringify` of the metadata object.
JSON serialization lives in the JavaScript runtime; it is modelled as
an injective field-by-field serialization with the matching parser
`decodeMetadata` below.  No claim observes the concrete JSON syntax —
only that serialize/parse round-trips and that the checksum and
ownership fields are carried. -/
def encodeMetadata (m : DocMetadata) : List Nat :=
  lenPrefixed (strBytes m.userId) ++ lenPrefixed (strBytes m.documentId) ++
    u32be m.timestamp ++ u32be m.size ++ lenPrefixed (strBytes m.checksum)

/-- Read one length-prefixed field; `none` on truncated input. -/
def readLP (bs : List Nat) : Option (List Nat × List Nat) :=
  if 4 ≤ bs.length ∧ readU32 (bs.take 4) ≤ (bs.drop 4).length then
    some ((bs.drop 4).take (readU32 (bs.take 4)),
      (bs.drop 4).drop (readU32 (bs.take 4)))
  else none

/-- Bytes back to a string (inverse of `strBytes` on valid input). -/
def bytesToStr (bs : List Nat) : String :=
  String.mk (bs.map Char.ofNat)

/-- Modelled from the spec: `JSON.parse` of the metadata buffer, the
inverse of `encodeMetadata`; `none` models the parse throwing. -/
def decodeMetadata (bs : List Nat) : Option DocMetadata :=
  match readLP bs with
  | none => none
  | some (u, r1) =>
    match readLP r1 with
    | none => none
    | some (d, r2) =>
      if 8 ≤ r2.length then
        match readLP (r2.drop 8) with
        | none => none
        | some (c, r3) =>
          if r3 = [] then
            some ⟨bytesToStr u, bytesToStr d, readU32 (r2.take 4),
              readU32 ((r2.drop 4).take 4), bytesToStr c⟩
          else none
      else none

/-- `encryptDocument(documentBuffer, userId, documentId)` on the
no-password path (the only path the claims exercise): build the
metadata (timestamp and checksum included), prepend the metadata
buffer with its 32-bit length to the document, derive the key with
`generateDocumentKey`, and encrypt.  The source reads `Date.now()`
twice (metadata and key derivation); both readings are modelled by the
single `now` parameter, which only strengthens the code's case. -/
def encryptDocument (documentBuffer : List Nat)
    (userId documentId : String) (now : Nat) (iv : List Nat) : List Nat :=
  let md : DocMetadata :=
    ⟨userId, documentId, now, documentBuffer.length,
      hexStr (sha256Model documentBuffer)⟩
  let metadataBuffer := encodeMetadata md
  let combinedData := u32be metadataBuffer.length ++ metadataBuffer ++
    documentBuffer
  let key := generateDocumentKey userId documentId now
  encrypt combinedData key iv

/-- `decryptDocument(encryptedData, userId, documentId)` on the
no-password path: re-derive the key with `generateDocumentKey` (at the
decryption-time clock reading `now`), decrypt, split off the metadata,
verify the checksum and the ownership, and return document and
metadata. -/
def decryptDocument (encryptedData : List Nat)
    (userId documentId : String) (now : Nat) :
    Option (List Nat × DocMetadata) :=
  let key := generateDocumentKey userId documentId now
  match decrypt encryptedData key with
  | none => none
  | some decryptedData =>
    let metadataLength := readU32 (decryptedData.take 4)
    let metadataBuffer := (decryptedData.drop 4).take metadataLength
    let documentBuffer := (decryptedData.drop 4).drop metadataLength
    match decodeMetadata metadataBuffer with
    | none => none
    | some metadata =>
      if hexStr (sha256Model documentBuffer) ≠ metadata.checksum then none
      else if metadata.userId ≠ userId then none
      else some (documentBuffer, metadata)

/-! ### Second encryption service (encryption service with package
serialization) and biometric template registration -/

/-- The fixed associated data bound by that service's cipher:
`'biosteg-locker-document'`. -/
def aad11 : List Nat := strBytes "biosteg-locker-document"

/-- Modelled from the spec: the JSON metadata header of
`serializeEncryptedPackage` (`algorithm`, `timestamp`, the component
lengths and the `hasKey` / `hasSalt` flags), as an injective binary
encoding; no claim observes the JSON syntax. -/
def encodeMeta11 (timestamp ivLen tagLen encLen : Nat)
    (hasKey hasSalt : Bool) (keyLen saltLen : Nat) : List Nat :=
  strBytes "aes-256-gcm" ++ u32be timestamp ++ u32be ivLen ++
    u32be tagLen ++ u32be encLen ++
    [if hasKey then 1 else 0, if hasSalt then 1 else 0] ++
    u32be keyLen ++ u32be saltLen

/-- `serializeEncryptedPackage`: length-prefixed metadata, then
`iv ++ tag ++ encrypted`, then — when present — the raw `key` and
`salt` fields appended at the end. -/
def serializeEncryptedPackage (timestamp : Nat) (iv tag encrypted : List Nat)
    (key salt : Option (List Nat)) : List Nat :=
  let meta := encodeMeta11 timestamp iv.length tag.length encrypted.length
    key.isSome salt.isSome (key.getD []).length (salt.getD []).length
  u32be meta.length ++ meta ++ iv ++ tag ++ encrypted ++ key.getD [] ++
    salt.getD []

/-- `encryptDocument(documentBuffer, userPassword)` of the serializing
service: `key` is the encryption key (`generateKey()` when no password,
the PBKDF2-derived key otherwise), `iv` the generated-but-unused IV,
`salt` the fresh random salt stored (note: the source stores a salt
generated *after* key derivation, not the derivation salt).  The
package stores the raw key exactly when no password was supplied
(`key: userPassword ? null : key`). -/
def encryptDocument11 (documentBuffer key iv : List Nat)
    (usePassword : Bool) (salt : List Nat) (now : Nat) : List Nat :=
  let encrypted := xorKs key 0 documentBuffer
  let tag := gcmTagOf key aad11 encrypted
  serializeEncryptedPackage now iv tag encrypted
    (if usePassword then none else some key)
    (if usePassword then some salt else none)

/-- A rational-vector serialization standing in for
`JSON.stringify(features)`: sign, numerator and denominator bytes per
component.  Used only as hash input. -/
def encFeature (q : ℚ) : List Nat :=
  u32be q.num.natAbs ++ [if q.num < 0 then 1 else 0] ++ u32be q.den

/-- Byte view of a feature vector (hash input for template digests). -/
def encFeatures (v : List ℚ) : List Nat :=
  (v.map encFeature).flatten

/-- `createMockBiometricTemplate`: a 128-dimension vector expanded from
the SHA-256 of the credential data, each component normalized to
`[-1, 1]` via `hash[i % 32] / 255 * 2 - 1`. -/
def mockTemplate (credential : List Nat) : List ℚ :=
  (List.range 128).map
    (fun i => ((sha256Model credential).getD (i % 32) 0 : ℚ) / 255 * 2 - 1)

/-- `encryptTemplate(template, key)`: cipher over the serialized
template, then `Buffer.concat([iv, tag, encrypted])` — the IV again
generated but never given to the cipher. -/
def encryptTemplate (template : List ℚ) (key iv : List Nat) : List Nat :=
  let encrypted := xorKs key 0 (encFeatures template)
  let tag := gcmTagOf key [] encrypted
  iv ++ tag ++ encrypted

/-- `generateTemplateId`: first 16 hex characters of the template's
SHA-256. -/
def generateTemplateId (template : List ℚ) : String :=
  (hexStr (sha256Model (encFeatures template))).take 16

/-- The `biometric_templates` row written by the registration route. -/
structure TemplateRow where
  user_id : String
  biometric_type : String
  template_data : List Nat
  template_id : String
  encryption_key : String
  confidence_score : ℚ
deriving DecidableEq, Repr

/-- The row assembled by `POST /register`: the template is encrypted
with a fresh random key (`crypto.randomBytes(32)`, the `encryptionKey`
parameter), and the very same key is stored hex-encoded in the
`encryption_key` column of the same row
(`encryption_key: encryptionKey.toString('hex')`). -/
def registerTemplateRow (userId biometricType : String)
    (credential encryptionKey iv : List Nat) : TemplateRow :=
  let template := mockTemplate credential
  { user_id := userId
    biometric_type := biometricType
    template_data := encryptTemplate template encryptionKey iv
    template_id := generateTemplateId template
    encryption_key := hexStr encryptionKey
    confidence_score := 95 / 100 }

/-! ### Biometric matcher (biometric verification service) -/

/-- Biometric kinds with configured thresholds. -/
inductive BioType where
  | fingerprint
  | face
deriving DecidableEq, Repr

/-- Per-kind similarity threshold: fingerprint `0.85`, face `0.90`. -/
def threshold (ty : BioType) : ℚ :=
  if ty = BioType.fingerprint then 85 / 100 else 90 / 100

/-- The dot-product accumulator of `cosineSimilarity`. -/
def dotProduct (vec1 vec2 : List ℚ) : ℚ :=
  (List.zipWith (· * ·) vec1 vec2).sum

/-- Sum of squares (the pre-`sqrt` accumulator `norm`). -/
def sumSq (v : List ℚ) : ℚ :=
  dotProduct v v

/-- `cosineSimilarity(vec1, vec2)`.  `Math.sqrt` is an external float
primitive; it is the explicit parameter `sq`, constrained in theorems
only where its value matters (`sq x = 0 ↔ x = 0` — true of the real
square root on the nonnegative accumulators).  When either norm is
zero the guarded division is skipped and `0` is returned. -/
def cosineSimilarity (sq : ℚ → ℚ) (vec1 vec2 : List ℚ) : ℚ :=
  if sq (sumSq vec1) = 0 ∨ sq (sumSq vec2) = 0 then 0
  else dotProduct vec1 vec2 / (sq (sumSq vec1) * sq (sumSq vec2))

/-- Result of `compareFeatures`. -/
inductive CompareResult where
  | ok (similarity thresh : ℚ) (isMatch : Bool)
  | err (msg : String)
deriving DecidableEq, Repr

/-- `compareFeatures(features1, features2, type)`: dimension mismatch
is a hard error; otherwise cosine similarity against the per-kind
threshold.  (The JavaScript null-guard has no counterpart for Lean
lists.) -/
def compareFeatures (sq : ℚ → ℚ) (features1 features2 : List ℚ)
    (ty : BioType) : CompareResult :=
  if features1.length ≠ features2.length then
    .err "Feature vector dimension mismatch"
  else
    .ok (cosineSimilarity sq features1 features2) (threshold ty)
      (decide (threshold ty ≤ cosineSimilarity sq features1 features2))

/-- Mean of the feature components. -/
def meanQ (v : List ℚ) : ℚ :=
  v.sum / v.length

/-- Population variance of the feature components, exactly as the
`reduce` pipeline of `assessQuality` computes it. -/
def varianceQ (v : List ℚ) : ℚ :=
  (v.map (fun x => (x - meanQ v) ^ 2)).sum / v.length

/-- `assessQuality(features)`: `min(stdDev * 2, 1.0)` where `stdDev`
is the square root (`sq`) of the variance. -/
def assessQuality (sq : ℚ → ℚ) (features : List ℚ) : ℚ :=
  min (sq (varianceQ features) * 2) 1

/-- A stored biometric template: features plus integrity hash. -/
structure StoredTemplate where
  features : List ℚ
  hash : List Nat
deriving DecidableEq, Repr

/-- The integrity digest of a stored template
(`sha256(JSON.stringify(features))`). -/
def templateHash (features : List ℚ) : List Nat :=
  sha256Model (encFeatures features)

/-- Result of `verifyBiometric`. -/
inductive VerifyResult where
  | ok (verified : Bool) (similarity thresh quality : ℚ)
  | err (msg : String)
deriving DecidableEq, Repr

/-- `generateMockFeatures`: the repository's hash-derived stand-in
feature extractor (512 dimensions, `hash[i % 32] / 255 * 2 - 1`). -/
def generateMockFeatures (data : List Nat) : List ℚ :=
  (List.range 512).map
    (fun i => ((sha256Model data).getD (i % 32) 0 : ℚ) / 255 * 2 - 1)

/-- `verifyBiometric(biometricData, storedTemplate, type)`.  Feature
extraction is delegated to an external provider (spec §4.3); the
repository substitutes the hash-derived mock `generateMockFeatures`,
so the extractor is the explicit parameter `extractor`.  Order of the
source: extract, template-integrity check, `compareFeatures` (its
error returned as-is), and only then the quality gate
(`assessQuality < 0.5`). -/
def verifyBiometric (extractor : List Nat → List ℚ) (sq : ℚ → ℚ)
    (biometricData : List Nat) (storedTemplate : StoredTemplate)
    (ty : BioType) : VerifyResult :=
  if templateHash storedTemplate.features ≠ storedTemplate.hash then
    .err "Template integrity check failed"
  else
    match compareFeatures sq (extractor biometricData)
        storedTemplate.features ty with
    | .err m => .err m
    | .ok similarity thresh isMatch =>
      if assessQuality sq (extractor biometricData) < 1 / 2 then
        .err "Biometric quality too low"
      else .ok isMatch similarity thresh
        (assessQuality sq (extractor biometricData))

/-! ### Document-access route (`POST /verify/:documentId`) -/

/-- Environment of one call to the verification route: the outcome of
every collaborator consulted inside the handler's `try` block, in the
order the source consults them. -/
structure VerifyEnv where
  challengeValid : Bool
  docFound : Bool
  now : Nat
  startTime : Nat
  endTime : Nat
  docActive : Bool
  templateFound : Bool
  processSuccess : Bool
  verifySuccess : Bool
  verified : Bool
  confidence : ℚ
  downloadSuccess : Bool
  extractSuccess : Bool
  decryptSuccess : Bool
deriving DecidableEq, Repr

/-- Terminal outcome of one call to the verification route. -/
inductive VerifyOutcome where
  | success
  | challengeInvalid
  | docNotFound
  | notYetAvailable
  | expired
  | notActive
  | templateNotFound
  | processFailed
  | verifyErrored
  | mismatch
  | downloadFailed
  | extractFailed
  | decryptFailed
deriving DecidableEq, Repr

/-- One `access_logs` row. -/
structure AccessLogRow where
  user_id : String
  document_id : String
  access_type : String
  success : Bool
  failure_reason : Option String
  confidence_score : Option ℚ
deriving DecidableEq, Repr

/-- The row inserted by the handler's catch block
(`failure_reason: error.message`). -/
def catchLog (u d msg : String) : AccessLogRow :=
  ⟨u, d, "biometric_verification", false, some msg, none⟩

/-- The row inserted in the `!verifyResult.verified` branch before the
error is thrown. -/
def mismatchLog (u d : String) (conf : ℚ) : AccessLogRow :=
  ⟨u, d, "biometric_verification", false, some "biometric_mismatch",
    some conf⟩

/-- The row inserted on full success. -/
def successLog (u d : String) (conf : ℚ) : AccessLogRow :=
  ⟨u, d, "biometric_verification", true, none, some conf⟩

/-- The `POST /verify/:documentId` handler body from challenge
validation onward (its `try` block), returning the terminal outcome and
the `access_logs` rows inserted during the call.  Every thrown error is
caught by the handler's catch block, which inserts one failure row;
the biometric-mismatch branch inserts its own row *and then throws*,
so the catch block inserts a second one.  (The model assumes the ids
are non-empty — the route cannot match otherwise — and that the log
insert itself does not fail.) -/
def verifyHandler (userId documentId : String) (env : VerifyEnv) :
    VerifyOutcome × List AccessLogRow :=
  if env.challengeValid = false then
    (.challengeInvalid,
      [catchLog userId documentId "Invalid or expired biometric challenge"])
  else if env.docFound = false then
    (.docNotFound, [catchLog userId documentId "Document not found"])
  else if env.now < env.startTime then
    (.notYetAvailable,
      [catchLog userId documentId "Document access not yet available"])
  else if env.endTime < env.now then
    (.expired, [catchLog userId documentId "Document access has expired"])
  else if env.docActive = false then
    (.notActive, [catchLog userId documentId "Document is not active"])
  else if env.templateFound = false then
    (.templateNotFound,
      [catchLog userId documentId
        "Biometric template not found. Please enroll your biometric first."])
  else if env.processSuccess = false then
    (.processFailed,
      [catchLog userId documentId "Biometric data processing failed"])
  else if env.verifySuccess = false then
    (.verifyErrored,
      [catchLog userId documentId "Biometric verification failed"])
  else if env.verified = false then
    (.mismatch,
      [mismatchLog userId documentId env.confidence,
        catchLog userId documentId "Biometric verification failed"])
  else if env.downloadSuccess = false then
    (.downloadFailed,
      [catchLog userId documentId "Failed to retrieve document"])
  else if env.extractSuccess = false then
    (.extractFailed,
      [catchLog userId documentId "Document extraction failed"])
  else if env.decryptSuccess = false then
    (.decryptFailed,
      [catchLog userId documentId "Document decryption failed"])
  else
    (.success, [successLog userId documentId env.confidence])

end BioSteg

namespace BioSteg

/-! ### Basic codec lemmas -/

theorem byteToBits_length (b : Nat) : (byteToBits b).length = 8 := rfl

theorem bytesToBits_length (data : List Nat) :
    (bytesToBits data).length = 8 * data.length := by
  induction data with
  | nil => rfl
  | cons d rest ih =>
    simp only [bytesToBits, List.map_cons, List.flatten_cons,
      List.length_append, byteToBits_length, List.length_cons] at ih ⊢
    omega

theorem embedBits_length (flat bits : List Nat) :
    (embedBits flat bits).length = flat.length := by
  induction flat generalizing bits with
  | nil => cases bits <;> rfl
  | cons v flat ih =>
    cases bits with
    | nil => rfl
    | cons b bits => simp [embedBits, ih]

/-- Bit arithmetic of the embedding write: for a byte value and a bit,
`(v & 0xFE) | b` is `2 * (v / 2) + b`. -/
theorem land_lor_eq (v b : Nat) (hv : v < 256) (hb : b < 2) :
    (v &&& 254) ||| b = v / 2 * 2 + b := by
  have h : ∀ v' < 256, ∀ b' < 2, (v' &&& 254) ||| b' = v' / 2 * 2 + b' := by
    decide
  exact h v hv b hb

theorem bytesToBits_bits (data : List Nat) :
    ∀ b ∈ bytesToBits data, b < 2 := by
  induction data with
  | nil => simp [bytesToBits]
  | cons d rest ih =>
    intro b hb
    simp only [bytesToBits, List.map_cons, List.flatten_cons,
      List.mem_append] at hb
    rcases hb with hb | hb
    · simp only [byteToBits, List.mem_cons, List.not_mem_nil,
        or_false] at hb
      rcases hb with h | h | h | h | h | h | h | h <;> (subst h; omega)
    · exact ih b hb

/-- The embedded prefix carries the binary data in its LSBs. -/
theorem embedBits_take_map (bits : List Nat) :
    ∀ flat : List Nat, (∀ b ∈ bits, b < 2) → (∀ v ∈ flat, v < 256) →
      bits.length ≤ flat.length →
      ((embedBits flat bits).take bits.length).map (· % 2) = bits := by
  induction bits with
  | nil => intro flat _ _ _; simp
  | cons b bs ih =>
    intro flat hb hv hlen
    cases flat with
    | nil => simp at hlen
    | cons v vs =>
      have hb0 : b < 2 := hb b (by simp)
      have hv0 : v < 256 := hv v (by simp)
      simp only [embedBits, List.length_cons, List.take_succ_cons,
        List.map_cons]
      rw [land_lor_eq v b hv0 hb0]
      have h1 : (v / 2 * 2 + b) % 2 = b := by omega
      rw [h1, ih vs (fun x hx => hb x (by simp [hx]))
        (fun x hx => hv x (by simp [hx])) (by simpa using hlen)]

/-- Values beyond the embedded prefix are untouched. -/
theorem embedBits_getD_ge (bits : List Nat) :
    ∀ (flat : List Nat) (i : Nat), bits.length ≤ i →
      (embedBits flat bits).getD i 0 = flat.getD i 0 := by
  induction bits with
  | nil => intro flat i _; cases flat <;> rfl
  | cons b bs ih =>
    intro flat i hi
    cases flat with
    | nil => rfl
    | cons v vs =>
      cases i with
      | zero => simp at hi
      | succ j =>
        simp only [embedBits, List.getD_cons_succ]
        exact ih vs j (by simpa using hi)

/-- Inside the embedded prefix only the least-significant bit changes:
the written value is `2 * (old / 2) + bit`. -/
theorem embedBits_getD_lt (bits : List Nat) :
    ∀ (flat : List Nat) (i : Nat), i < bits.length → i < flat.length →
      (∀ b ∈ bits, b < 2) → (∀ v ∈ flat, v < 256) →
      (embedBits flat bits).getD i 0 =
        flat.getD i 0 / 2 * 2 + bits.getD i 0 := by
  induction bits with
  | nil => intro flat i hi _ _ _; simp at hi
  | cons b bs ih =>
    intro flat i hi hif hb hv
    cases flat with
    | nil => simp at hif
    | cons v vs =>
      cases i with
      | zero =>
        simp only [embedBits, List.getD_cons_zero]
        exact land_lor_eq v b (hv v (by simp)) (hb b (by simp))
      | succ j =>
        simp only [embedBits, List.getD_cons_succ]
        exact ih vs j (by simpa using hi) (by simpa using hif)
          (fun x hx => hb x (by simp [hx])) (fun x hx => hv x (by simp [hx]))

theorem take_append_cons (acc rest : List Nat) (b : Nat) :
    (acc ++ b :: rest).take (acc.length + 1) = acc ++ [b] := by
  induction acc with
  | nil => rfl
  | cons a acc ih => simpa using ih

/-- Scanning lemma for extraction: if the LSB stream starts with a
bit string `B` that ends with the delimiter and no proper prefix of
`B` ends with the delimiter, the extraction loop stops exactly at the
end of `B` and returns `B` without its final 16 bits. -/
theorem scan_main (B : List Nat) (hB : delim <:+ B)
    (hfree : ∀ k, k < B.length → ¬ delim <:+ B.take k) :
    ∀ (cur acc px : List Nat), acc ++ cur = B → cur ≠ [] →
      cur.length ≤ px.length →
      (px.take cur.length).map (· % 2) = cur →
      extractBitsAux px acc = B.take (B.length - 16) := by
  intro cur
  induction cur with
  | nil => intro acc px _ hne _ _; exact absurd rfl hne
  | cons b bs ih =>
    intro acc px hsum hne hlen hmap
    cases px with
    | nil => simp at hlen
    | cons p ps =>
      simp only [List.length_cons, List.take_succ_cons, List.map_cons,
        List.cons.injEq] at hmap
      obtain ⟨hp, hps⟩ := hmap
      simp only [extractBitsAux, hp]
      cases bs with
      | nil =>
        have hfull : acc ++ [b] = B := by simpa using hsum
        rw [if_pos (hfull ▸ hB), hfull]
      | cons c cs =>
        have hlt : acc.length + 1 < B.length := by
          have := congrArg List.length hsum
          simp at this
          omega
        have htake : B.take (acc.length + 1) = acc ++ [b] := by
          rw [← hsum, take_append_cons]
        rw [if_neg (by rw [← htake]; exact hfree _ hlt)]
        exact ih (acc ++ [b]) ps
          (by simpa [List.append_assoc] using hsum)
          (by simp) (by simpa using hlen) hps

/-- Scanning lemma for the no-delimiter case: if no prefix of the LSB
stream ends with the delimiter, the loop consumes the entire stream
and returns every accumulated bit. -/
theorem scan_nostop :
    ∀ (px acc : List Nat),
      (∀ k, k ≤ px.length → ¬ delim <:+ acc ++ (px.map (· % 2)).take k) →
      extractBitsAux px acc = acc ++ px.map (· % 2) := by
  intro px
  induction px with
  | nil => intro acc _; simp [extractBitsAux]
  | cons p ps ih =>
    intro acc hfree
    simp only [extractBitsAux]
    rw [if_neg (by
      have := hfree 1 (by simp)
      simpa using this)]
    have := ih (acc ++ [p % 2]) (fun k hk => by
      have := hfree (k + 1) (by simpa using hk)
      simpa [List.append_assoc] using this)
    simpa [List.append_assoc] using this

theorem byte_reassemble (b : Nat) (hb : b < 256) :
    (((((((b / 128 % 2 * 2 + b / 64 % 2) * 2 + b / 32 % 2) * 2 +
      b / 16 % 2) * 2 + b / 8 % 2) * 2 + b / 4 % 2) * 2 + b / 2 % 2) * 2 +
      b % 2) = b := by
  omega

/-- Byte-aligned reassembly inverts serialization for genuine bytes. -/
theorem bitsToBytes_bytesToBits (data : List Nat)
    (hdata : ∀ b ∈ data, b < 256) :
    bitsToBytes (bytesToBits data) = data := by
  induction data with
  | nil => rfl
  | cons d rest ih =>
    have hd : d < 256 := hdata d (by simp)
    simp only [bytesToBits, List.map_cons, List.flatten_cons, byteToBits,
      List.cons_append, List.nil_append, bitsToBytes]
    rw [byte_reassemble d hd]
    exact congrArg (d :: ·) (ih (fun x hx => hdata x (by simp [hx])))

theorem padToByte_aligned (bits : List Nat) (h : bits.length % 8 = 0) :
    padToByte bits = bits := by
  simp [padToByte, h]

theorem binaryData_length (data : List Nat) :
    (bytesToBits data ++ delim).length = 8 * data.length + 16 := by
  simp [List.length_append, bytesToBits_length, delim]

theorem binaryData_bits (data : List Nat) :
    ∀ b ∈ bytesToBits data ++ delim, b < 2 := by
  intro b hb
  rcases List.mem_append.mp hb with h | h
  · exact bytesToBits_bits data b h
  · have : ∀ x ∈ delim, x < 2 := by decide
    exact this b h

theorem embed_eq_some (img : CarrierImage) (data : List Nat)
    (hcap : 8 * data.length + 16 ≤ img.height * img.width * img.channels) :
    embed_data_in_image img data =
      some (CarrierImage.mk img.height img.width img.channels
        (embedBits img.pixels (bytesToBits data ++ delim))) := by
  rw [embed_data_in_image, if_neg]
  rw [binaryData_length]
  omega

/-! ### Claim theorems: steganographic codec -/

/-- C1 (counterexample).  The payload `[0xFF, 0xFE]` serializes to
exactly the delimiter bit pattern, so on a 4×4×3 all-zero carrier with
ample capacity the embed succeeds but extraction stops at the payload's
own bits and returns the empty payload instead of `[255, 254]`: the
round-trip law fails for this payload even though the capacity
hypothesis of the claim holds (`8*2+16 = 32 ≤ 48`). -/
theorem C1_counterexample :
    (embed_data_in_image ⟨4, 4, 3, List.replicate 48 0⟩ [255, 254]).map
      extract_data_from_image = some [] := by decide

/-- C1 (amended).  Codec round-trip law: for every carrier whose pixel
buffer matches its shape, with byte-valued channels and capacity at
least the payload's bit length plus the 16 delimiter bits, and for
every byte payload **whose bit stream with the delimiter appended
contains the delimiter only as its final 16 bits** (no proper prefix of
`payloadBits ++ delimiter` ends with the delimiter),
`extract_data_from_image` applied to the image produced by
`embed_data_in_image` returns exactly the original payload,
byte-for-byte, independent of carrier content. -/
theorem C1_roundtrip_amended (img : CarrierImage) (data : List Nat)
    (hwf : img.pixels.length = img.height * img.width * img.channels)
    (hpx : ∀ v ∈ img.pixels, v < 256)
    (hbytes : ∀ b ∈ data, b < 256)
    (hcap : 8 * data.length + 16 ≤ img.height * img.width * img.channels)
    (hfree : ∀ k, k < 8 * data.length + 16 →
      ¬ delim <:+ (bytesToBits data ++ delim).take k) :
    (embed_data_in_image img data).map extract_data_from_image =
      some data := by
  rw [embed_eq_some img data hcap, Option.map_some']
  have hlenB := binaryData_length data
  have hscan := scan_main (bytesToBits data ++ delim)
    (List.suffix_append _ _) (by rw [hlenB]; exact hfree)
    (bytesToBits data ++ delim) [] (embedBits img.pixels
      (bytesToBits data ++ delim))
    (by simp)
    (by
      intro h
      have := congrArg List.length h
      rw [hlenB] at this
      simp at this)
    (by rw [embedBits_length, hwf, hlenB]; exact hcap)
    (embedBits_take_map _ _ (binaryData_bits data) hpx
      (by rw [hwf, hlenB]; exact hcap))
  rw [extract_data_from_image]
  rw [hscan, hlenB]
  have htake : (bytesToBits data ++ delim).take (8 * data.length + 16 - 16)
      = bytesToBits data := by
    have h8 : 8 * data.length + 16 - 16 = (bytesToBits data).length := by
      rw [bytesToBits_length]
      omega
    rw [h8, List.take_left]
  rw [htake, padToByte_aligned _ (by rw [bytesToBits_length]; omega),
    bitsToBytes_bytesToBits data hbytes]

/-- C1 (witness for the amended round-trip law), at payload `[7]` on a
4×4×3 zero carrier. -/
theorem C1_roundtrip_witness :
    (embed_data_in_image ⟨4, 4, 3, List.replicate 48 0⟩ [7]).map
      extract_data_from_image = some [7] :=
  C1_roundtrip_amended _ [7] (by decide) (by decide) (by decide)
    (by decide) (by decide)

/-- C4 (counterexample).  A 2×2×3 all-zero stego image has an LSB
stream (12 zero bits) that never contains the delimiter, yet extraction
does not fail: it silently returns the stream zero-padded to 16 bits
and reassembled as the two bytes `[0, 0]`. -/
theorem C4_counterexample :
    (∀ k, k ≤ 12 →
      ¬ delim <:+ (((List.replicate 12 0).map (· % 2)).take k)) ∧
    extract_data_from_image ⟨2, 2, 3, List.replicate 12 0⟩ = [0, 0] := by
  constructor
  · decide
  · decide

/-- C4 (amended).  For every stego image whose LSB stream never
contains the 16-bit delimiter pattern, extraction does **not** fail:
the loop exhausts the pixel stream and silently returns the entire LSB
stream, zero-padded to a byte boundary and packed into bytes (the
Python code has no failure branch for a missing delimiter). -/
theorem C4_no_delimiter_amended (img : CarrierImage)
    (h : ∀ k, k ≤ img.pixels.length →
      ¬ delim <:+ ((img.pixels.map (· % 2)).take k)) :
    extract_data_from_image img =
      bitsToBytes (padToByte (img.pixels.map (· % 2))) := by
  rw [extract_data_from_image,
    scan_nostop img.pixels [] (by simpa using h)]
  simp

/-- C4 (witness for the amended behaviour) on a 1×3×1 image with even
channel values (all LSBs zero). -/
theorem C4_no_delimiter_witness :
    extract_data_from_image ⟨1, 3, 1, [2, 4, 6]⟩ =
      bitsToBytes (padToByte ([2, 4, 6].map (· % 2))) :=
  C4_no_delimiter_amended _ (by decide)

/-- C5 (confirmed).  Capacity boundary: embedding succeeds exactly when
the payload's bit length plus the 16 delimiter bits is at most
`width*height*channels`, and fails otherwise.  The capacity test in the
source precedes the write loop, and the embedding model mutates nothing
on the failure branch, so a failed embed leaves the carrier unchanged. -/
theorem C5_capacity_boundary (img : CarrierImage) (data : List Nat)
    (hbytes : ∀ b ∈ data, b < 256) :
    (embed_data_in_image img data).isSome = true ↔
      8 * data.length + 16 ≤ img.height * img.width * img.channels := by
  rw [embed_data_in_image]
  by_cases h : (bytesToBits data ++ delim).length >
      img.height * img.width * img.channels
  · rw [if_pos h]
    rw [binaryData_length] at h
    simp only [Option.isSome_none, Bool.false_eq_true, false_iff]
    omega
  · rw [if_neg h]
    rw [binaryData_length] at h
    simp only [Option.isSome_some, true_iff]
    omega

/-- C5 (witness): a 24-bit payload-plus-delimiter fits a 48-value
carrier. -/
theorem C5_capacity_witness :
    (embed_data_in_image ⟨4, 4, 3, List.replicate 48 0⟩ [7]).isSome
        = true ↔ 8 * [7].length + 16 ≤ 4 * 4 * 3 :=
  C5_capacity_boundary ⟨4, 4, 3, List.replicate 48 0⟩ [7] (by decide)

/-- C9 (confirmed).  Frame property of embed: for every well-formed
carrier and every payload that fits, the output image keeps the input's
height, width and channel count and has a pixel buffer of the same
length; every value at or beyond position `payloadBits + 16` is
bit-identical to the input, and within the embedded prefix all
higher-order bits (`value / 2`) are unchanged while the LSB equals the
corresponding bit of `payloadBits ++ delimiter`. -/
theorem C9_frame (img : CarrierImage) (data : List Nat)
    (hwf : img.pixels.length = img.height * img.width * img.channels)
    (hpx : ∀ v ∈ img.pixels, v < 256)
    (hbytes : ∀ b ∈ data, b < 256)
    (hcap : 8 * data.length + 16 ≤ img.height * img.width * img.channels) :
    ∃ out, embed_data_in_image img data = some out ∧
      out.height = img.height ∧ out.width = img.width ∧
      out.channels = img.channels ∧
      out.pixels.length = img.pixels.length ∧
      (∀ i, 8 * data.length + 16 ≤ i →
        out.pixels.getD i 0 = img.pixels.getD i 0) ∧
      (∀ i, i < 8 * data.length + 16 →
        out.pixels.getD i 0 / 2 = img.pixels.getD i 0 / 2 ∧
        out.pixels.getD i 0 % 2 =
          (bytesToBits data ++ delim).getD i 0) := by
  refine ⟨_, embed_eq_some img data hcap, rfl, rfl, rfl,
    embedBits_length _ _, ?_, ?_⟩
  · intro i hi
    exact embedBits_getD_ge _ _ _ (by rw [binaryData_length]; exact hi)
  · intro i hi
    have hif : i < img.pixels.length := by rw [hwf]; omega
    have h := embedBits_getD_lt (bytesToBits data ++ delim) img.pixels i
      (by rw [binaryData_length]; exact hi) hif (binaryData_bits data) hpx
    have hbit : (bytesToBits data ++ delim).getD i 0 < 2 := by
      have hin : i < (bytesToBits data ++ delim).length := by
        rw [binaryData_length]; exact hi
      rw [List.getD_eq_getElem _ _ hin]
      exact binaryData_bits data _ (List.getElem_mem hin)
    constructor
    · rw [h]; omega
    · rw [h]; omega

/-- C9 (witness), at payload `[7]` on a 4×4×3 carrier of value-5
channels. -/
theorem C9_frame_witness :
    ∃ out, embed_data_in_image ⟨4, 4, 3, List.replicate 48 5⟩ [7]
        = some out ∧
      out.height = 4 ∧ out.width = 4 ∧ out.channels = 3 ∧
      out.pixels.length = (List.replicate 48 5).length ∧
      (∀ i, 8 * [7].length + 16 ≤ i →
        out.pixels.getD i 0 = (List.replicate 48 5).getD i 0) ∧
      (∀ i, i < 8 * [7].length + 16 →
        out.pixels.getD i 0 / 2 = (List.replicate 48 5).getD i 0 / 2 ∧
        out.pixels.getD i 0 % 2 =
          (bytesToBits [7] ++ delim).getD i 0) :=
  C9_frame ⟨4, 4, 3, List.replicate 48 5⟩ [7] (by decide) (by decide)
    (by decide) (by decide)

/-! ### Encryption-engine lemmas -/

theorem sha256Model_length (input : List Nat) :
    (sha256Model input).length = 32 := by
  simp [sha256Model]

theorem xorKs_length (key : List Nat) :
    ∀ (i : Nat) (l : List Nat), (xorKs key i l).length = l.length := by
  intro i l
  induction l generalizing i with
  | nil => rfl
  | cons b rest ih => simp [xorKs, ih]

theorem xorKs_xorKs (key : List Nat) :
    ∀ (i : Nat) (l : List Nat), xorKs key i (xorKs key i l) = l := by
  intro i l
  induction l generalizing i with
  | nil => rfl
  | cons b rest ih =>
    simp only [xorKs, List.cons.injEq]
    exact ⟨Nat.xor_cancel_right _ _, ih (i + 1)⟩

theorem gcmTagOf_length (key aad ct : List Nat) :
    (gcmTagOf key aad ct).length = 16 := by
  simp [gcmTagOf, sha256Model]

theorem encrypt_length (pt key iv : List Nat) (hiv : iv.length = 16) :
    (encrypt pt key iv).length = 32 + pt.length := by
  simp [encrypt, hiv, gcmTagOf_length, xorKs_length]
  omega

theorem encrypt_parse_tag (pt key iv : List Nat) (hiv : iv.length = 16) :
    ((encrypt pt key iv).drop 16).take 16 =
      gcmTagOf key [] (xorKs key 0 pt) := by
  rw [encrypt, List.append_assoc, List.drop_left' hiv,
    List.take_left' (gcmTagOf_length _ _ _)]

theorem encrypt_parse_ct (pt key iv : List Nat) (hiv : iv.length = 16) :
    (encrypt pt key iv).drop 32 = xorKs key 0 pt := by
  rw [encrypt, List.append_assoc, show (32 : Nat) = 16 + 16 from rfl,
    ← List.drop_drop, List.drop_left' hiv,
    List.drop_left' (gcmTagOf_length _ _ _)]

theorem getD_drop (l : List Nat) :
    ∀ (m n : Nat), (l.drop m).getD n 0 = l.getD (m + n) 0 := by
  induction l with
  | nil => intro m n; simp
  | cons x xs ih =>
    intro m n
    cases m with
    | zero => simp
    | succ m' =>
      rw [List.drop_succ_cons, ih m' n,
        show m' + 1 + n = (m' + n) + 1 by omega, List.getD_cons_succ]

theorem getD_take (l : List Nat) :
    ∀ (m n : Nat), n < m → (l.take m).getD n 0 = l.getD n 0 := by
  induction l with
  | nil => intro m n _; simp
  | cons x xs ih =>
    intro m n h
    cases m with
    | zero => omega
    | succ m' =>
      cases n with
      | zero => rfl
      | succ n' =>
        simp only [List.take_succ_cons, List.getD_cons_succ]
        exact ih m' n' (by omega)

theorem xor_pow_ne (a k : Nat) : a ^^^ 2 ^ k ≠ a := by
  intro h
  have h2 : a ^^^ (a ^^^ 2 ^ k) = a ^^^ a := congrArg (a ^^^ ·) h
  rw [← Nat.xor_assoc, Nat.xor_self, Nat.zero_xor] at h2
  have hp : 0 < 2 ^ k := Nat.two_pow_pos k
  omega

theorem set_getD_xor_ne (l : List Nat) (j k : Nat) (hj : j < l.length) :
    l.set j ((l.getD j 0) ^^^ 2 ^ k) ≠ l := by
  intro h
  have hget := congrArg (fun t => t.getD j 0) h
  simp only at hget
  rw [List.getD_eq_getElem _ _ (by simpa using hj),
    List.getElem_set_self] at hget
  exact xor_pow_ne _ k hget

theorem xorAll_cons (x : Nat) (t : List Nat) :
    xorAll (x :: t) = x ^^^ xorAll t := rfl

theorem xorAll_set (l : List Nat) :
    ∀ (j m : Nat), j < l.length →
      xorAll (l.set j ((l.getD j 0) ^^^ m)) = xorAll l ^^^ m := by
  induction l with
  | nil => intro j m hj; simp at hj
  | cons x xs ih =>
    intro j m hj
    cases j with
    | zero =>
      rw [List.getD_cons_zero, List.set_cons_zero, xorAll_cons, xorAll_cons,
        Nat.xor_assoc, Nat.xor_comm m, ← Nat.xor_assoc]
    | succ j' =>
      rw [List.getD_cons_succ, List.set_cons_succ, xorAll_cons, xorAll_cons,
        ih j' m (by simpa using hj), ← Nat.xor_assoc]

/-! ### Claim theorems: encryption engine (C2, C3) -/

/-- C2 (code bug).  `generateDocumentKey` hashes
`userId:documentId:Date.now()`, so the key depends on the wall clock:
encrypting at clock reading 0 and decrypting at clock reading 1
re-derives a *different* key and decryption fails, while decrypting at
the same clock reading (the only case in which the key coincides)
returns the original buffer.  The claim's deterministic re-derivation
is exactly what the decryption code structurally assumes, so the
timestamp in the key input makes the no-password vault unable to
decrypt its own documents. -/
theorem C2_key_not_deterministic :
    decryptDocument
        (encryptDocument [1, 2, 3] "u" "d" 0 (List.replicate 16 0))
        "u" "d" 1 = none ∧
      (decryptDocument
        (encryptDocument [1, 2, 3] "u" "d" 0 (List.replicate 16 0))
        "u" "d" 0).map Prod.fst = some [1, 2, 3] := by
  constructor <;> decide

/-- C3 (counterexample).  Flipping bit 0 of the encrypted package —
a bit of the stored IV/nonce field — does **not** make decryption
fail: the IV field is parsed but never used by `createDecipher`
(which derives its key and IV from the key argument alone), so the
corrupted package still decrypts to the original plaintext. -/
theorem C3_counterexample :
    decrypt
        (flipBit (encrypt [1, 2, 3] (List.range 32) (List.replicate 16 0)) 0)
        (List.range 32) = some [1, 2, 3] := by
  decide

/-- C3 (amended).  Tamper sensitivity holds for the authenticated
fields only: for every key, plaintext and 16-byte IV, flipping any
single bit of the `authTag` (bits 128–255) or of the ciphertext (bits
256 and up) makes `decrypt` fail closed, releasing no plaintext; but
flipping a bit of the stored IV/nonce field (bits 0–127) leaves
decryption unaffected — it still succeeds with the original
plaintext — because the deprecated `createDecipher` API ignores the
stored IV. -/
theorem C3_tamper_amended (key pt iv : List Nat) (i : Nat)
    (hiv : iv.length = 16)
    (hibound : i < 8 * (encrypt pt key iv).length) :
    (128 ≤ i →
      decrypt (flipBit (encrypt pt key iv) i) key = none) ∧
    (i < 128 →
      decrypt (flipBit (encrypt pt key iv) i) key = some pt) := by
  have hplen : (encrypt pt key iv).length = 32 + pt.length :=
    encrypt_length pt key iv hiv
  have hctlen : (xorKs key 0 pt).length = pt.length := xorKs_length key 0 pt
  have htag16 : (gcmTagOf key [] (xorKs key 0 pt)).length = 16 :=
    gcmTagOf_length _ _ _
  have hj : i / 8 < (encrypt pt key iv).length := by omega
  constructor
  · intro hi128
    by_cases hj32 : i / 8 < 32
    · -- the flip lands in the authTag field
      have hd16 : (flipBit (encrypt pt key iv) i).drop 16 =
          ((encrypt pt key iv).drop 16).set (i / 8 - 16)
            (((encrypt pt key iv).getD (i / 8) 0) ^^^ 2 ^ (i % 8)) := by
        rw [flipBit, List.drop_set, if_neg (by omega)]
      have hd32 : (flipBit (encrypt pt key iv) i).drop 32 =
          (encrypt pt key iv).drop 32 := by
        rw [flipBit, List.drop_set, if_pos (by omega)]
      have hgetD : (encrypt pt key iv).getD (i / 8) 0 =
          (gcmTagOf key [] (xorKs key 0 pt)).getD (i / 8 - 16) 0 := by
        rw [show i / 8 = 16 + (i / 8 - 16) by omega, ← getD_drop,
          ← encrypt_parse_tag pt key iv hiv, getD_take _ _ _ (by omega),
          Nat.add_sub_cancel_left]
      rw [decrypt]
      rw [hd32, hd16, List.set_take, encrypt_parse_tag pt key iv hiv,
        encrypt_parse_ct pt key iv hiv, hgetD]
      rw [if_neg]
      exact fun h => set_getD_xor_ne _ (i / 8 - 16) (i % 8)
        (by rw [gcmTagOf_length]; omega) h.symm
    · -- the flip lands in the ciphertext
      have hd16 : (flipBit (encrypt pt key iv) i).drop 16 =
          ((encrypt pt key iv).drop 16).set (i / 8 - 16)
            (((encrypt pt key iv).getD (i / 8) 0) ^^^ 2 ^ (i % 8)) := by
        rw [flipBit, List.drop_set, if_neg (by omega)]
      have hd32 : (flipBit (encrypt pt key iv) i).drop 32 =
          ((encrypt pt key iv).drop 32).set (i / 8 - 32)
            (((encrypt pt key iv).getD (i / 8) 0) ^^^ 2 ^ (i % 8)) := by
        rw [flipBit, List.drop_set, if_neg (by omega)]
      have hgetD : (encrypt pt key iv).getD (i / 8) 0 =
          (xorKs key 0 pt).getD (i / 8 - 32) 0 := by
        rw [show i / 8 = 32 + (i / 8 - 32) by omega, ← getD_drop,
          encrypt_parse_ct pt key iv hiv, Nat.add_sub_cancel_left]
      have htagkeep :
          (((encrypt pt key iv).drop 16).set (i / 8 - 16)
              (((encrypt pt key iv).getD (i / 8) 0) ^^^ 2 ^ (i % 8))).take 16
            = gcmTagOf key [] (xorKs key 0 pt) := by
        rw [List.set_take, encrypt_parse_tag pt key iv hiv,
          List.set_eq_of_length_le (by rw [gcmTagOf_length]; omega)]
      rw [decrypt]
      rw [hd32, hd16, htagkeep, encrypt_parse_ct pt key iv hiv, hgetD]
      rw [if_neg]
      intro h
      have hhead := congrArg (fun t => t.getD 0 0) h
      simp only [gcmTagOf, List.nil_append, List.getD_cons_zero] at hhead
      rw [xorAll_set _ _ _ (by omega)] at hhead
      have h2 : xorAll (xorKs key 0 pt) ^^^ 2 ^ (i % 8) =
          xorAll (xorKs key 0 pt) := by
        have h3 := congrArg (· ^^^ (sha256Model key).getD 0 0) hhead
        simpa [Nat.xor_cancel_right] using h3
      exact xor_pow_ne _ _ h2
  · intro hi128
    have hd16 : (flipBit (encrypt pt key iv) i).drop 16 =
        (encrypt pt key iv).drop 16 := by
      rw [flipBit, List.drop_set, if_pos (by omega)]
    have hd32 : (flipBit (encrypt pt key iv) i).drop 32 =
        (encrypt pt key iv).drop 32 := by
      rw [flipBit, List.drop_set, if_pos (by omega)]
    rw [decrypt]
    rw [hd32, hd16, encrypt_parse_tag pt key iv hiv,
      encrypt_parse_ct pt key iv hiv, if_pos rfl, xorKs_xorKs]

/-- C3 (witness for the amended tamper theorem), flipping bit 130
(inside the authTag) of a concrete package. -/
theorem C3_tamper_witness :
    (128 ≤ 130 →
      decrypt (flipBit (encrypt [1, 2, 3] (List.range 32)
        (List.replicate 16 0)) 130) (List.range 32) = none) ∧
    (130 < 128 →
      decrypt (flipBit (encrypt [1, 2, 3] (List.range 32)
        (List.replicate 16 0)) 130) (List.range 32) = some [1, 2, 3]) :=
  C3_tamper_amended (List.range 32) [1, 2, 3] (List.replicate 16 0) 130
    (by decide) (by decide)

/-! ### Claim theorems: audit log of the verification route (C6) -/

/-- C6 (counterexample).  One call whose only failure is a biometric
mismatch (valid challenge, document found and active, time window
open, template found, verification ran with `verified = false`)
inserts **two** `access_logs` rows, not one: the mismatch branch
inserts its specific row and then throws, and the catch-all block
inserts a generic row for the same call. -/
theorem C6_counterexample :
    (verifyHandler "u" "d"
        ⟨true, true, 5, 0, 10, true, true, true, true, false, 1 / 2,
          true, true, true⟩).1 = VerifyOutcome.mismatch ∧
      (verifyHandler "u" "d"
        ⟨true, true, 5, 0, 10, true, true, true, true, false, 1 / 2,
          true, true, true⟩).2 =
        [mismatchLog "u" "d" (1 / 2),
          catchLog "u" "d" "Biometric verification failed"] :=
  ⟨rfl, rfl⟩

/-- C6 (amended).  For every call reaching the handler body, at least
one `access_logs` row is inserted and the count is exactly one for
every outcome — time gate closed, template not found, extraction or
decryption failure, full success — **except** a biometric mismatch,
which inserts exactly two rows (the specific `biometric_mismatch` row
and the catch-all row). -/
theorem C6_audit_amended (u d : String) (env : VerifyEnv) :
    ((verifyHandler u d env).2).length =
      if (verifyHandler u d env).1 = VerifyOutcome.mismatch then 2
      else 1 := by
  by_cases h1 : env.challengeValid = false
  · simp [verifyHandler, h1]
  by_cases h2 : env.docFound = false
  · simp [verifyHandler, h1, h2]
  by_cases h3 : env.now < env.startTime
  · simp [verifyHandler, h1, h2, h3]
  by_cases h4 : env.endTime < env.now
  · simp [verifyHandler, h1, h2, h3, h4]
  by_cases h5 : env.docActive = false
  · simp [verifyHandler, h1, h2, h3, h4, h5]
  by_cases h6 : env.templateFound = false
  · simp [verifyHandler, h1, h2, h3, h4, h5, h6]
  by_cases h7 : env.processSuccess = false
  · simp [verifyHandler, h1, h2, h3, h4, h5, h6, h7]
  by_cases h8 : env.verifySuccess = false
  · simp [verifyHandler, h1, h2, h3, h4, h5, h6, h7, h8]
  by_cases h9 : env.verified = false
  · simp [verifyHandler, h1, h2, h3, h4, h5, h6, h7, h8, h9]
  by_cases h10 : env.downloadSuccess = false
  · simp [verifyHandler, h1, h2, h3, h4, h5, h6, h7, h8, h9, h10]
  by_cases h11 : env.extractSuccess = false
  · simp [verifyHandler, h1, h2, h3, h4, h5, h6, h7, h8, h9, h10, h11]
  by_cases h12 : env.decryptSuccess = false
  · simp [verifyHandler, h1, h2, h3, h4, h5, h6, h7, h8, h9, h10, h11, h12]
  simp [verifyHandler, h1, h2, h3, h4, h5, h6, h7, h8, h9, h10, h11, h12]

/-! ### Claim theorems: raw key storage (C7) -/

theorem hexVal_hexDigit (n : Nat) (h : n < 16) :
    hexVal (hexDigit n) = n := by
  have : ∀ m < 16, hexVal (hexDigit m) = m := by decide
  exact this n h

theorem hexDecode_hexStr (k : List Nat) (hk : ∀ b ∈ k, b < 256) :
    hexDecode (hexStr k).data = k := by
  induction k with
  | nil => rfl
  | cons b rest ih =>
    have hb : b < 256 := hk b (by simp)
    show hexDecode (((b :: rest).map
      (fun b => [hexDigit (b / 16), hexDigit (b % 16)])).flatten) = b :: rest
    simp only [List.map_cons, List.flatten_cons, List.cons_append,
      List.nil_append, hexDecode]
    rw [hexVal_hexDigit _ (by omega), hexVal_hexDigit _ (by omega)]
    refine congrArg₂ (· :: ·) (by omega) ?_
    exact ih (fun x hx => hk x (by simp [hx]))

/-- C7 (counterexample).  With no password, the serialized encrypted
package produced by the serializing `encryptDocument` *contains the
raw symmetric key* (here the 32 bytes `0..31`, appended after the
ciphertext), and the biometric template row written by the
registration route carries the raw key that encrypts its
`template_data`, hex-encoded, in its `encryption_key` column. -/
theorem C7_counterexample :
    (List.range 32) <:+
        encryptDocument11 [1, 2, 3] (List.range 32)
          (List.replicate 16 0) false [] 0 ∧
      (registerTemplateRow "u" "fingerprint" [9] (List.range 32)
        (List.replicate 16 0)).encryption_key = hexStr (List.range 32) :=
  ⟨by decide, rfl⟩

/-- C7 (amended).  The implementation **does** store raw symmetric
keys next to their own ciphertext: for every document buffer, key, IV
and timestamp, the keyless serialized package ends with the raw key;
and for every registration, the template row's `encryption_key`
column is exactly the hex encoding of the key that encrypted
`template_data` — an encoding inverted by `hexDecode`, so the raw key
is recoverable from the row.  (Only the password path omits the
key field from the package.) -/
theorem C7_key_storage_amended (buffer key iv salt : List Nat)
    (now : Nat) (uid bt : String) (cred k2 iv2 : List Nat)
    (hk2 : ∀ b ∈ k2, b < 256) :
    key <:+ encryptDocument11 buffer key iv false salt now ∧
      (registerTemplateRow uid bt cred k2 iv2).encryption_key =
        hexStr k2 ∧
      hexDecode (hexStr k2).data = k2 := by
  refine ⟨?_, rfl, hexDecode_hexStr k2 hk2⟩
  simp only [encryptDocument11, serializeEncryptedPackage,
    Bool.false_eq_true, if_false, Option.getD_some, Option.getD_none,
    List.append_nil]
  exact List.suffix_append _ _

/-- C7 (witness for the amended statement) at concrete inputs. -/
theorem C7_key_storage_witness :
    (List.range 32) <:+
        encryptDocument11 [5] (List.range 32) (List.replicate 16 1)
          false [] 3 ∧
      (registerTemplateRow "owner" "face" [1, 2] (List.range 32)
        (List.replicate 16 1)).encryption_key = hexStr (List.range 32) ∧
      hexDecode (hexStr (List.range 32)).data = List.range 32 :=
  C7_key_storage_amended [5] (List.range 32) (List.replicate 16 1) [] 3
    "owner" "face" [1, 2] (List.range 32) (List.replicate 16 1)
    (by decide)

/-! ### Claim theorems: biometric matcher (C8, C10) -/

theorem sum_const_list (v : List ℚ) (c : ℚ) (h : ∀ x ∈ v, x = c) :
    v.sum = c * v.length := by
  induction v with
  | nil => simp
  | cons x xs ih =>
    have hx : x = c := h x (by simp)
    rw [List.sum_cons, ih (fun y hy => h y (by simp [hy])), hx,
      List.length_cons]
    push_cast
    ring

/-- A feature vector with all-equal components (standard deviation 0)
has variance exactly 0. -/
theorem variance_const (v : List ℚ) (c : ℚ) (h : ∀ x ∈ v, x = c) :
    varianceQ v = 0 := by
  rcases v with _ | ⟨x, xs⟩
  · simp [varianceQ, meanQ]
  · have hmean : meanQ (x :: xs) = c := by
      rw [meanQ, sum_const_list _ c h]
      have hlen : (((x :: xs).length : ℚ)) ≠ 0 := by
        have h0 : (0 : ℚ) < ((x :: xs).length : ℚ) := by
          exact_mod_cast Nat.succ_pos xs.length
        exact ne_of_gt h0
      field_simp
    rw [varianceQ]
    have hz : ((x :: xs).map (fun y => (y - meanQ (x :: xs)) ^ 2)).sum
        = 0 := by
      apply List.sum_eq_zero
      intro y hy
      obtain ⟨z, hz, rfl⟩ := List.mem_map.mp hy
      rw [h z hz, hmean]
      ring
    rw [hz]
    simp

/-- C8 (counterexample).  A credential whose extracted feature vector
is all-equal (standard deviation 0, quality score 0) presented against
a stored template of a *different* dimension makes `verifyBiometric`
fail with the dimension-mismatch error of `compareFeatures`, not with
the low-quality error: the quality gate runs only after the comparison
succeeds, so the claim's "low-quality error is returned even when the
comparison itself would fail" is false on the code. -/
theorem C8_counterexample :
    verifyBiometric (fun _ => List.replicate 4 ((1 : ℚ) / 2))
        (fun x => x) [0]
        ⟨List.replicate 3 ((1 : ℚ) / 2),
          templateHash (List.replicate 3 ((1 : ℚ) / 2))⟩
        BioType.fingerprint = .err "Feature vector dimension mismatch" ∧
      assessQuality (fun x => x) (List.replicate 4 ((1 : ℚ) / 2)) = 0 := by
  constructor
  · simp [verifyBiometric, compareFeatures]
  · rw [assessQuality,
      variance_const (List.replicate 4 ((1 : ℚ) / 2)) (1 / 2)
        (fun x hx => List.eq_of_mem_replicate hx)]
    norm_num

/-- C8 (amended).  For every credential whose extracted feature vector
has standard deviation 0 (all components equal), the computed quality
score is 0, and `verifyBiometric` rejects with the low-quality error
regardless of the similarity — *provided the comparison of the two
feature vectors succeeds* (matching dimensions; the stored template's
integrity hash must also verify, as that check precedes everything).
The quality gate is evaluated **after** `compareFeatures`, so when the
comparison itself fails its error is returned instead of the
low-quality error. -/
theorem C8_quality_gate_amended (extractor : List Nat → List ℚ)
    (sq : ℚ → ℚ) (data : List Nat) (stored : StoredTemplate)
    (ty : BioType) (c : ℚ) (hsq : sq 0 = 0)
    (hconst : ∀ x ∈ extractor data, x = c)
    (hhash : templateHash stored.features = stored.hash)
    (hdim : (extractor data).length = stored.features.length) :
    assessQuality sq (extractor data) = 0 ∧
      verifyBiometric extractor sq data stored ty =
        .err "Biometric quality too low" := by
  have hq : assessQuality sq (extractor data) = 0 := by
    rw [assessQuality, variance_const _ c hconst, hsq]
    norm_num
  refine ⟨hq, ?_⟩
  rw [verifyBiometric, if_neg (by rw [hhash]; simp), compareFeatures,
    if_neg (by simp [hdim])]
  simp only [hq]
  norm_num

/-- C8 (witness for the amended statement): a constant extractor
against a stored template of the same dimension. -/
theorem C8_quality_gate_witness :
    assessQuality (fun x => x)
        ((fun _ : List Nat => List.replicate 4 ((1 : ℚ) / 2)) [0]) = 0 ∧
      verifyBiometric (fun _ => List.replicate 4 ((1 : ℚ) / 2))
        (fun x => x) [0]
        ⟨List.replicate 4 ((37 : ℚ) / 100),
          templateHash (List.replicate 4 ((37 : ℚ) / 100))⟩
        BioType.fingerprint = .err "Biometric quality too low" :=
  C8_quality_gate_amended (fun _ => List.replicate 4 ((1 : ℚ) / 2))
    (fun x => x) [0]
    ⟨List.replicate 4 ((37 : ℚ) / 100),
      templateHash (List.replicate 4 ((37 : ℚ) / 100))⟩
    BioType.fingerprint (1 / 2) rfl
    (fun x hx => List.eq_of_mem_replicate hx) rfl (by simp)

/-- C10 (confirmed).  `compareFeatures` is total on equal-length
vectors even at the zero vector: when either input has zero norm
(zero sum of squares — equivalently zero square root, for any `sq`
agreeing with the real square root on when it vanishes), the guarded
division is skipped and the operation returns success with similarity
exactly 0 and `isMatch = false`, since 0 is below both configured
thresholds. -/
theorem C10_zero_norm (sq : ℚ → ℚ) (v1 v2 : List ℚ) (ty : BioType)
    (hsq : ∀ x : ℚ, sq x = 0 ↔ x = 0)
    (hlen : v1.length = v2.length)
    (hzero : sumSq v1 = 0 ∨ sumSq v2 = 0) :
    compareFeatures sq v1 v2 ty = .ok 0 (threshold ty) false := by
  have hcs : cosineSimilarity sq v1 v2 = 0 := by
    rw [cosineSimilarity, if_pos]
    rcases hzero with h | h
    · exact Or.inl ((hsq _).mpr h)
    · exact Or.inr ((hsq _).mpr h)
  have h85 : ¬ ((85 : ℚ) / 100 ≤ 0) := by norm_num
  have h90 : ¬ ((90 : ℚ) / 100 ≤ 0) := by norm_num
  have hmatch : ¬ (threshold ty ≤ (0 : ℚ)) := by
    cases ty
    · simpa [threshold] using h85
    · simpa [threshold] using h90
  rw [compareFeatures, if_neg (by simp [hlen]), hcs,
    decide_eq_false hmatch]

/-- C10 (witness): the zero vector against `[1, 2]`. -/
theorem C10_zero_norm_witness :
    compareFeatures (fun x => x) [0, 0] [1, 2] BioType.fingerprint =
      .ok 0 (threshold BioType.fingerprint) false :=
  C10_zero_norm (fun x => x) [0, 0] [1, 2] BioType.fingerprint
    (fun x => Iff.rfl) rfl (Or.inl (by norm_num [sumSq, dotProduct]))

end BioSteg
